import Mathlib

/-!
Verification development for the Browser Vigilant feature extractor
(`src/model/features.py`).

Strings are modelled as `List Char` (Python strings are sequences of code
points).  Python floats are modelled as real numbers; all guarded divisions
of the source are embedded with the same `max _ 1` guards, so every value is
a well-defined real number (no NaN/infinity exists in this model).  Python's
`str.lower`, `str.isdigit`, `str.isalpha` are modelled on the ASCII range
(all reference constants and all features below only distinguish ASCII
characters).  The standard-library `urllib.parse.urlparse` called by
`parse_url_parts` is embedded following CPython 3.11's algorithm
(sanitization, scheme split, netloc split with the bracket validity check,
fragment/query split, params split); the additional CPython checks that can
only reject non-ASCII or bracketed authorities are modelled as succeeding,
which no claim below distinguishes.  Fallible parsing is explicit: the
embedded `urlparse` returns `Except Unit _`, and `parse_url_parts` catches
the error exactly as the source's `try/except` does.
-/

namespace BV

set_option maxRecDepth 40000
set_option maxHeartbeats 1000000

/-! ## Character helpers (ASCII models of Python predicates) -/

/-- ASCII letter, model of `[a-zA-Z]` and of `str.isalpha` on ASCII. -/
def isAsciiAlphaB (c : Char) : Bool :=
  ('a' ≤ c && c ≤ 'z') || ('A' ≤ c && c ≤ 'Z')

/-- ASCII letter or digit. -/
def isAsciiAlnumB (c : Char) : Bool :=
  isAsciiAlphaB c || c.isDigit

/-- Model of `str.lower` on one character (ASCII range). -/
def pyToLower (c : Char) : Char :=
  if 'A' ≤ c && c ≤ 'Z' then Char.ofNat (c.toNat + 32) else c

/-- Model of `str.lower` on a whole string. -/
def pyLowerS (s : List Char) : List Char := s.map pyToLower

/-! ## List/string helpers mirroring Python string operations -/

/-- `needle` occurs at the start of `hay`. -/
def isPrefixL : List Char → List Char → Bool
  | [], _ => true
  | _ :: _, [] => false
  | a :: as, b :: bs => a == b && isPrefixL as bs

/-- Model of Python's substring test `needle in hay`. -/
def subStr (needle : List Char) : List Char → Bool
  | [] => needle.isEmpty
  | c :: cs => isPrefixL needle (c :: cs) || subStr needle cs

/-- Model of Python `s.split(sep)` for a one-character separator: splits on
every occurrence and never returns an empty list. -/
def splitOnCh (sep : Char) : List Char → List (List Char)
  | [] => [[]]
  | c :: cs =>
    if c = sep then [] :: splitOnCh sep cs
    else
      match splitOnCh sep cs with
      | r :: rs => (c :: r) :: rs
      | [] => [[c]]

/-- Model of Python `".".join(parts)`. -/
def joinDots : List (List Char) → List Char
  | [] => []
  | [x] => x
  | x :: y :: xs => x ++ '.' :: joinDots (y :: xs)

/-- Decimal value of a digit string, model of Python `int` on digits. -/
def decNat (s : List Char) : Nat :=
  s.foldl (fun acc c => 10 * acc + (c.toNat - '0'.toNat)) 0

/-- Model of Python `min(xs)` on a non-empty list (0 if empty, unused). -/
def pyMinList : List Nat → Nat
  | [] => 0
  | x :: xs => xs.foldl min x

/-- Model of Python `max(xs, default=d)`. -/
def pyMaxListD (d : Nat) : List Nat → Nat
  | [] => d
  | x :: xs => xs.foldl max x

/-- Running maximum of the length of a run of characters satisfying `p`:
`cur` is the current run length and `mx` the maximum so far.  This is the
loop of `max_consecutive_consonants`, reused for regex runs like
`[A-Za-z0-9+/]{20,}` and `[a-f0-9]{32,}`. -/
def maxRunAux (p : Char → Bool) : List Char → Nat → Nat → Nat
  | [], _, mx => mx
  | c :: cs, cur, mx =>
    if p c then maxRunAux p cs (cur + 1) (max mx (cur + 1))
    else maxRunAux p cs 0 mx

/-! ## Model of CPython `urllib.parse.urlparse` (the fragment used here) -/

/-- CPython `urlsplit` sanitization: strip leading C0-control/space
characters, then remove every tab, carriage return and newline. -/
def sanitizeUrl (url : List Char) : List Char :=
  (url.dropWhile fun c => decide (c.toNat ≤ 0x20)).filter
    fun c => !(c == '\t' || c == '\r' || c == '\n')

/-- Characters allowed in a URL scheme by CPython. -/
def schemeCharOk (c : Char) : Bool :=
  isAsciiAlphaB c || c.isDigit || c == '+' || c == '-' || c == '.'

/-- CPython scheme split: if the text before the first `:` is non-empty,
starts with an ASCII letter and consists of scheme characters, it is the
(lowercased) scheme and the rest follows the `:`; otherwise no scheme. -/
def splitScheme (u : List Char) : List Char × List Char :=
  let pre := u.takeWhile fun c => c != ':'
  if pre.length < u.length && !pre.isEmpty &&
      (match pre with
       | c :: _ => isAsciiAlphaB c
       | [] => false) &&
      pre.all schemeCharOk then
    (pyLowerS pre, u.drop (pre.length + 1))
  else ([], u)

/-- The characters that terminate the netloc in `_splitnetloc`. -/
def netlocEndB (c : Char) : Bool := c == '/' || c == '?' || c == '#'

/-- Result of the embedded `urlsplit`. -/
structure SplitURL where
  scheme : List Char
  netloc : List Char
  path : List Char
  query : List Char
  fragment : List Char

/-- Fragment then query split (in CPython's order: `#` first, then `?`). -/
def splitFragQuery (rest : List Char) : List Char × List Char × List Char :=
  let pf := if rest.contains '#' then rest.takeWhile (fun c => c != '#') else rest
  let frag := if rest.contains '#' then (rest.dropWhile (fun c => c != '#')).tail else []
  let pp := if pf.contains '?' then pf.takeWhile (fun c => c != '?') else pf
  let q := if pf.contains '?' then (pf.dropWhile (fun c => c != '?')).tail else []
  (pp, q, frag)

/-- Model of CPython `urlsplit`.  The error case is the `ValueError` raised
for a netloc containing `[` without `]` or vice versa.  (CPython 3.11 can
additionally reject some bracketed or non-ASCII netlocs; those checks are
modelled as succeeding — no claim below distinguishes such inputs, and the
caller's fallback shape is covered separately.) -/
def urlsplitM (url : List Char) : Except Unit SplitURL :=
  let u := sanitizeUrl url
  let sr := splitScheme u
  if isPrefixL ['/', '/'] sr.2 then
    let after := sr.2.drop 2
    let netloc := after.takeWhile fun c => !netlocEndB c
    let r2 := after.dropWhile fun c => !netlocEndB c
    if (netloc.contains '[' && !netloc.contains ']') ||
        (netloc.contains ']' && !netloc.contains '[') then
      .error ()
    else
      let t := splitFragQuery r2
      .ok ⟨sr.1, netloc, t.1, t.2.1, t.2.2⟩
  else
    let t := splitFragQuery sr.2
    .ok ⟨sr.1, [], t.1, t.2.1, t.2.2⟩

/-- CPython `_splitparams`, keeping only the path part: drop a `;params`
suffix of the last path segment (of the whole string if there is no `/`). -/
def splitParams (p : List Char) : List Char :=
  if p.contains ';' then
    if p.contains '/' then
      let lastSeg := (p.reverse.takeWhile fun c => c != '/').reverse
      if lastSeg.contains ';' then
        p.take (p.length - lastSeg.length) ++ lastSeg.takeWhile (fun c => c != ';')
      else p
    else p.takeWhile fun c => c != ';'
  else p

/-! ## `parse_url_parts` (src/model/features.py lines 118-136) -/

/-- The dictionary returned by `parse_url_parts`. -/
structure ParsedURL where
  scheme : List Char
  host : List Char
  path : List Char
  query : List Char
  fragment : List Char
  port : Option Nat
  tld : List Char
  registered_domain : List Char
  subdomain : List Char
  labels : List (List Char)

/-- Embedding of `parse_url_parts`.  The `.error` branch is the source's
`except Exception` fallback dict. -/
def parse_url_parts (url : List Char) : ParsedURL :=
  match urlsplitM url with
  | .error _ => ⟨[], url, [], [], [], none, [], url, [], [url]⟩
  | .ok s =>
    let netloc := pyLowerS s.netloc
    let host_port := (splitOnCh '@' netloc).getLastD []
    let host := host_port.takeWhile fun c => c != ':'
    let port_str := (host_port.dropWhile fun c => c != ':').tail
    let port := if !port_str.isEmpty && port_str.all Char.isDigit
      then some (decNat port_str) else none
    let labels := splitOnCh '.' host
    let tld := labels.getLastD []
    let reg := if 2 ≤ labels.length then joinDots (labels.drop (labels.length - 2)) else host
    let sub := if 2 < labels.length then joinDots (labels.take (labels.length - 2)) else []
    ⟨pyLowerS s.scheme, host, splitParams s.path, s.query, s.fragment,
      port, tld, reg, sub, labels⟩

/-! ## Math helpers (src/model/features.py lines 61-115) -/

/-- The common body of both entropy computations of the source: for a list
of characters, `-Σ (f/n) · log₂(f/n)` where `f` ranges over the
frequencies of the distinct characters (the values of the `freq` dict) and
`n` is the total count. -/
noncomputable def freqEntropy (l : List Char) : ℝ :=
  -((l.dedup.map fun c =>
      ((l.count c : ℝ) / (l.length : ℝ)) *
        Real.logb 2 ((l.count c : ℝ) / (l.length : ℝ))).sum)

/-- The same frequency-entropy body over a list of n-grams. -/
noncomputable def freqEntropyN (l : List (List Char)) : ℝ :=
  -((l.dedup.map fun g =>
      ((l.count g : ℝ) / (l.length : ℝ)) *
        Real.logb 2 ((l.count g : ℝ) / (l.length : ℝ))).sum)

/-- Shannon entropy `H = -Σ p(c) · log₂(p(c))` of the character
distribution of `s` (lines 61-69).  The sum ranges over the distinct
characters of `s` (the keys of the `freq` dict). -/
noncomputable def shannon_entropy (s : List Char) : ℝ :=
  if s = [] then 0 else freqEntropy s

/-- Inner loop of Wagner-Fischer (lines 80-82): given the current row
character `x` of `a`, the remaining characters `ys` of `b`, the tail of the
previous row aligned with `ys`, the previous row's entry one to the left
(`diag` = `prev[j-1]`) and the current row's last computed entry
(`left` = `curr[j-1]`), produce the rest of the current row. -/
def wfInner (x : Char) : List Char → List Nat → Nat → Nat → List Nat
  | [], _, _, _ => []
  | _ :: _, [], _, _ => []
  | y :: ys, pj :: ps, diag, left =>
    let c := min (pj + 1) (min (left + 1) (diag + if x = y then 0 else 1))
    c :: wfInner x ys ps pj c

/-- Outer loop of Wagner-Fischer (lines 78-83): fold over the characters of
`a`, carrying the previous row and the row index `i`. -/
def wfLoop (b : List Char) : List Char → List Nat → Nat → List Nat
  | [], prev, _ => prev
  | x :: xs, prev, i =>
    wfLoop b xs (i :: wfInner x b prev.tail (prev.headD 0) i) (i + 1)

/-- The Wagner-Fischer distance proper: initial row `range (n+1)`, final
answer `prev[n]` (the last entry of the final row). -/
def levDP (a b : List Char) : Nat :=
  (wfLoop b a (List.range (b.length + 1)) 1).getLastD 0

/-- Embedding of `levenshtein` (lines 72-84), including the initial swap
that makes the first argument the longer one. -/
def levenshtein (a b : List Char) : Nat :=
  if a.length < b.length then levDP b a else levDP a b

/-- The list of contiguous `n`-grams `[s[i:i+n] for i in range(len(s)-n+1)]`. -/
def ngramsOf (s : List Char) (n : Nat) : List (List Char) :=
  (List.range (s.length - n + 1)).map fun i => (s.drop i).take n

/-- Shannon entropy over the multiset of contiguous `n`-grams of `s`
(lines 106-115); `0.0` when `s` is shorter than `n`. -/
noncomputable def char_ngram_entropy (s : List Char) (n : Nat) : ℝ :=
  if s.length < n then 0 else freqEntropyN (ngramsOf s n)

/-! ## Reference constants (lines 23-57) -/

/-- Brand lexicon `BRANDS`. -/
def BRANDS : List (List Char) :=
  ["google", "facebook", "amazon", "apple", "microsoft", "paypal", "netflix",
   "instagram", "twitter", "linkedin", "whatsapp", "youtube", "yahoo", "ebay",
   "dropbox", "spotify", "adobe", "chase", "wellsfargo", "bankofamerica",
   "citi", "hsbc", "barclays", "halifax", "natwest", "santander", "lloyds",
   "steam", "roblox", "epic", "coinbase", "binance", "metamask", "opensea",
   "paytm", "phonepe", "gpay", "bhim", "razorpay", "hdfc", "icici", "sbi",
   "axis", "kotak", "airtel", "jio", "vodafone", "bsnl", "flipkart",
   "myntra"].map String.toList

/-- Suspicious top-level domains `SUSPICIOUS_TLDS`. -/
def SUSPICIOUS_TLDS : List (List Char) :=
  ["xyz", "tk", "top", "cf", "ml", "ga", "gq", "pw", "cc", "icu", "club",
   "online", "site", "website", "space", "live", "click", "link", "info",
   "biz", "work", "tech", "store", "shop", "ru", "cn", "vip", "win", "loan",
   "download"].map String.toList

/-- Known-legitimate UPI handles `LEGIT_UPI_HANDLES`. -/
def LEGIT_UPI_HANDLES : List (List Char) :=
  ["okaxis", "okicici", "oksbi", "okhdfcbank", "ybl", "ibl", "axl", "apl",
   "fbl", "upi", "paytm", "waaxis", "waxis", "rajgovhdfcbank", "barodampay",
   "allbank", "andb", "aubank", "cnrb", "csbpay", "dbs", "dcb", "federal",
   "hdfcbank", "idbi", "idfc", "indus", "idfcbank", "jio", "kotak", "lvb",
   "mahb", "nsdl", "pnb", "psb", "rbl", "sib", "tjsb", "uco", "union",
   "united", "vijb", "yapl", "airtel", "airtelpaymentsbank",
   "postbank"].map String.toList

/-- Short-URL services `SHORT_URL_SERVICES`. -/
def SHORT_URL_SERVICES : List (List Char) :=
  ["bit.ly", "tinyurl.com", "t.co", "goo.gl", "ow.ly", "is.gd", "buff.ly",
   "adf.ly", "tiny.cc", "clck.ru", "cutt.ly", "rb.gy", "short.io", "v.gd",
   "bitly.com", "shorte.st", "t2m.io"].map String.toList

/-- Dangerous file extensions `DANGEROUS_EXTENSIONS`. -/
def DANGEROUS_EXTENSIONS : List (List Char) :=
  ["exe", "scr", "bat", "cmd", "ps1", "vbs", "wsf", "hta", "jar", "msi",
   "msp", "reg", "dll", "pif", "com", "cpl", "inf", "apk", "ipa", "dmg",
   "pkg", "deb", "rpm"].map String.toList

/-- `min_brand_distance` (lines 87-90): minimum Levenshtein distance from
the lowercased first `.`-label of `domain` to the brand lexicon. -/
def min_brand_distance (domain : List Char) : Nat :=
  let core := pyLowerS ((splitOnCh '.' domain).headD [])
  pyMinList (BRANDS.map fun b => levenshtein core b)

/-- `max_consecutive_consonants` (lines 93-103). -/
def max_consecutive_consonants (s : List Char) : Nat :=
  maxRunAux
    (fun c => isAsciiAlphaB c && !(['a', 'e', 'i', 'o', 'u'].contains c))
    (pyLowerS s) 0 0

/-! ## Scanners for the regular expressions of `extract_features`

Each definition is the (linear) matching semantics of one `re` pattern of
the source; the randomized equivalence of each scanner with CPython `re`
was checked for the exact pattern it models. -/

/-- ASCII hexadecimal digit, the class `[0-9a-fA-F]`. -/
def isHexDigitB (c : Char) : Bool :=
  c.isDigit || ('a' ≤ c && c ≤ 'f') || ('A' ≤ c && c ≤ 'F')

/-- Word character for `\b` (ASCII model of `\w`). -/
def isWordCh (c : Char) : Bool := isAsciiAlnumB c || c == '_'

/-- A run of exactly `l` ASCII digits starting at index `i` of `s`. -/
def digitsAt (s : List Char) (i l : Nat) : Bool :=
  ((s.drop i).take l).length == l && ((s.drop i).take l).all Char.isDigit

/-- The character `'.'` at index `i` of `s`. -/
def dotAt (s : List Char) (i : Nat) : Bool := s.get? i == some '.'

/-- Word boundary `\b` immediately before index `i` (the pattern continues
with a word character, so only the left side is tested). -/
def boundaryBefore (s : List Char) (i : Nat) : Bool :=
  i == 0 ||
    (match s.get? (i - 1) with
     | some c => !isWordCh c
     | none => true)

/-- Word boundary `\b` immediately after index `e` (the pattern ends with a
word character, so only the right side is tested). -/
def boundaryAfter (s : List Char) (e : Nat) : Bool :=
  match s.get? e with
  | some c => !isWordCh c
  | none => true

/-- A match of `\b(?:\d{1,3}\.){3}\d{1,3}\b` at index `i` with group
lengths `l1..l4`. -/
def ipv4At (s : List Char) (i l1 l2 l3 l4 : Nat) : Bool :=
  boundaryBefore s i &&
  digitsAt s i l1 && dotAt s (i + l1) &&
  digitsAt s (i + l1 + 1) l2 && dotAt s (i + l1 + 1 + l2) &&
  digitsAt s (i + l1 + l2 + 2) l3 && dotAt s (i + l1 + l2 + 2 + l3) &&
  digitsAt s (i + l1 + l2 + l3 + 3) l4 &&
  boundaryAfter s (i + l1 + l2 + l3 + l4 + 3)

/-- `re.search(r"\b(?:\d{1,3}\.){3}\d{1,3}\b", s)`: some start index and
some choice of the four group lengths matches. -/
def hasIpv4 (s : List Char) : Bool :=
  (List.range (s.length + 1)).any fun i =>
    [1, 2, 3].any fun l1 => [1, 2, 3].any fun l2 =>
      [1, 2, 3].any fun l3 => [1, 2, 3].any fun l4 => ipv4At s i l1 l2 l3 l4

/-- Number of matches of `re.findall(r"%[0-9a-fA-F]{2}", s)` (non-
overlapping, left to right; a match can never contain a later `%`). -/
def pctCount : List Char → Nat
  | '%' :: a :: b :: rest =>
    if isHexDigitB a && isHexDigitB b then 1 + pctCount rest
    else pctCount (a :: b :: rest)
  | _ :: rest => pctCount rest
  | [] => 0

/-- Local-part character class `[a-zA-Z0-9._-]` of the UPI VPA pattern. -/
def isVpaLocalB (c : Char) : Bool :=
  isAsciiAlnumB c || c == '.' || c == '_' || c == '-'

/-- All matches of `re.finditer(r"[a-zA-Z0-9._-]+@[a-zA-Z]+", s)` as
(local-part, handle) pairs, leftmost first, non-overlapping. -/
def upiScan : List Char → List (List Char × List Char)
  | [] => []
  | c :: cs =>
    if isVpaLocalB c then
      let loc := c :: cs.takeWhile isVpaLocalB
      match h : cs.dropWhile isVpaLocalB with
      | '@' :: r2 =>
        let hd := r2.takeWhile isAsciiAlphaB
        if hd.isEmpty then upiScan ('@' :: r2)
        else (loc, hd) :: upiScan (r2.dropWhile isAsciiAlphaB)
      | rest => upiScan rest
    else upiScan cs
termination_by s => s.length
decreasing_by
  · have h1 : (cs.dropWhile isVpaLocalB).length ≤ cs.length :=
      (List.dropWhile_suffix isVpaLocalB).length_le
    rw [h] at h1
    simp at h1 ⊢
    omega
  · have h1 : (cs.dropWhile isVpaLocalB).length ≤ cs.length :=
      (List.dropWhile_suffix isVpaLocalB).length_le
    have h2 : (r2.dropWhile isAsciiAlphaB).length ≤ r2.length :=
      (List.dropWhile_suffix isAsciiAlphaB).length_le
    rw [h] at h1
    simp at h1 ⊢
    omega
  · have h1 : (cs.dropWhile isVpaLocalB).length ≤ cs.length :=
      (List.dropWhile_suffix isVpaLocalB).length_le
    rw [h] at h1
    simp
    omega
  · simp

/-- First match of `re.search(r"\.([a-zA-Z0-9]{1,5})(?:[?#]|$)", s)`:
group 1 of the leftmost `.` followed by a maximal alphanumeric run of
length 1..5 ending at `?`, `#`, the end of the string, or a final newline
(Python `$`). -/
def extScan : List Char → Option (List Char)
  | [] => none
  | c :: cs =>
    if c = '.' then
      let run := cs.takeWhile isAsciiAlnumB
      let after := cs.dropWhile isAsciiAlnumB
      if 1 ≤ run.length && run.length ≤ 5 &&
          (after.isEmpty || after == ['\n'] ||
            after.headD ' ' == '?' || after.headD ' ' == '#') then
        some run
      else extScan cs
    else extScan cs

/-- One alternative of `re.search(r"pa=.*@", line)` on a newline-free
`line`: some occurrence of `pa=` is followed by a later `@`. -/
def paCollect : List Char → Bool
  | [] => false
  | c :: cs =>
    (isPrefixL ['p', 'a', '='] (c :: cs) && ((c :: cs).drop 3).contains '@') ||
      paCollect cs

/-- Python `s.split("//", 1)[-1]`: everything after the first `//`. -/
def afterDoubleSlash : List Char → List Char
  | [] => []
  | '/' :: '/' :: rest => rest
  | _ :: rest => afterDoubleSlash rest

/-! ## Keyword lexicons (lines 194-198) -/

/-- Login keywords. -/
def login_kw : List (List Char) :=
  ["login", "signin", "sign-in", "account", "verify", "auth", "authenticate",
   "confirm", "update"].map String.toList

/-- Trust keywords (checked against the host only). -/
def trust_kw : List (List Char) :=
  ["secure", "safe", "trust", "bank", "protected", "official",
   "helpdesk"].map String.toList

/-- Payment keywords. -/
def pay_kw : List (List Char) :=
  ["pay", "payment", "wallet", "upi", "gpay", "paytm", "bhim", "razorpay",
   "phonepay"].map String.toList

/-- Incentive keywords. -/
def free_kw : List (List Char) :=
  ["free", "bonus", "prize", "winner", "giveaway", "reward", "claim", "gift",
   "lucky", "congratulations"].map String.toList

/-- Fraud-pressure keywords. -/
def fraud_kw : List (List Char) :=
  ["kyc", "refund", "tax", "block", "suspend", "urgent", "helpdesk",
   "support", "care", "alert"].map String.toList

/-- Fraud-pressure tokens of the UPI check (line 238). -/
def fraud_pfx : List (List Char) :=
  ["refund", "tax", "prize", "block", "kyc", "urgent", "helpdesk", "support",
   "care"].map String.toList

/-- Document extensions of the double-extension pattern (line 210). -/
def docExts : List (List Char) :=
  ["pdf", "doc", "jpg", "jpeg", "png", "gif", "mp4", "zip"].map String.toList

/-- Executable extensions of the double-extension pattern (line 210). -/
def exeExts : List (List Char) :=
  ["exe", "js", "php", "bat", "ps1", "vbs", "cmd", "scr"].map String.toList

/-- Redirect-style parameter names of the open-redirect pattern (line 253). -/
def redirect_kw : List (List Char) :=
  ["redirect", "returnurl", "continue", "next", "goto", "url"].map String.toList

/-- Base64 alphabet `[A-Za-z0-9+/]` (line 231). -/
def isBase64B (c : Char) : Bool :=
  isAsciiAlnumB c || c == '+' || c == '/'

/-- Lowercase hexadecimal `[a-f0-9]` (line 257). -/
def isHexLowB (c : Char) : Bool :=
  c.isDigit || ('a' ≤ c && c ≤ 'f')

/-! ## The 56 features (lines 141-259), one definition per vector slot,
named after `FEATURE_NAMES`. -/

/-- F0 `url_length`: `len(url)`. -/
noncomputable def url_length (u : List Char) : ℝ := (u.length : ℝ)

/-- F1 `domain_length`: `len(host)`. -/
noncomputable def domain_length (u : List Char) : ℝ :=
  ((parse_url_parts u).host.length : ℝ)

/-- F2 `path_length`: `len(path)`. -/
noncomputable def path_length (u : List Char) : ℝ :=
  ((parse_url_parts u).path.length : ℝ)

/-- F3 `query_length`: `len(query)`. -/
noncomputable def query_length (u : List Char) : ℝ :=
  ((parse_url_parts u).query.length : ℝ)

/-- F4 `dot_count`: `url.count(".")`. -/
noncomputable def dot_count (u : List Char) : ℝ := (u.count '.' : ℝ)

/-- F5 `hyphen_count`: `url.count("-")`. -/
noncomputable def hyphen_count (u : List Char) : ℝ := (u.count '-' : ℝ)

/-- F6 `underscore_count`: `url.count("_")`. -/
noncomputable def underscore_count (u : List Char) : ℝ := (u.count '_' : ℝ)

/-- F7 `slash_count`: `/`-count after stripping everything up to the first
`//` (if any). -/
noncomputable def slash_count (u : List Char) : ℝ :=
  (((if subStr (['/', '/']) u then afterDoubleSlash u else u).count '/' : ℕ) : ℝ)

/-- F8 `at_count`: `url.count("@")`. -/
noncomputable def at_count (u : List Char) : ℝ := (u.count '@' : ℝ)

/-- F9 `digit_count`: number of digit characters of the URL. -/
noncomputable def digit_count (u : List Char) : ℝ := (u.countP Char.isDigit : ℝ)

/-- F10 `digit_ratio`: digits / max(len(url), 1). -/
noncomputable def digit_ratio_feat (u : List Char) : ℝ :=
  (u.countP Char.isDigit : ℝ) / ((max u.length 1 : ℕ) : ℝ)

/-- F11 `is_https`: scheme equals "https". -/
noncomputable def is_https (u : List Char) : ℝ :=
  if (parse_url_parts u).scheme = ("https".toList) then 1 else 0

/-- F12 `ip_in_url`: the IPv4 pattern matches somewhere in the host. -/
noncomputable def ip_in_url (u : List Char) : ℝ :=
  if hasIpv4 (parse_url_parts u).host then 1 else 0

/-- F13 `is_punycode`: host contains "xn--". -/
noncomputable def is_punycode (u : List Char) : ℝ :=
  if subStr ("xn--".toList) (parse_url_parts u).host then 1 else 0

/-- F14 `subdomain_depth`: `max(len(labels) - 2, 0)`. -/
noncomputable def subdomain_depth (u : List Char) : ℝ :=
  ((max (((parse_url_parts u).labels.length : ℤ) - 2) 0 : ℤ) : ℝ)

/-- F15 `port_anomaly`: a port is present and is none of 80, 443, 8080,
8443. -/
noncomputable def port_anomaly (u : List Char) : ℝ :=
  match (parse_url_parts u).port with
  | none => 0
  | some pt => if pt = 80 ∨ pt = 443 ∨ pt = 8080 ∨ pt = 8443 then 0 else 1

/-- F16 `url_entropy`. -/
noncomputable def url_entropy (u : List Char) : ℝ := shannon_entropy u

/-- F17 `domain_entropy`. -/
noncomputable def domain_entropy (u : List Char) : ℝ :=
  shannon_entropy (parse_url_parts u).host

/-- F18 `path_entropy`. -/
noncomputable def path_entropy (u : List Char) : ℝ :=
  shannon_entropy (parse_url_parts u).path

/-- F19 `domain_bigram_entropy`. -/
noncomputable def domain_bigram_entropy (u : List Char) : ℝ :=
  char_ngram_entropy (parse_url_parts u).host 2

/-- F20 `domain_trigram_entropy`. -/
noncomputable def domain_trigram_entropy (u : List Char) : ℝ :=
  char_ngram_entropy (parse_url_parts u).host 3

/-- F21 `brand_spoof_flag`: `1.0 if 0 < min_dist <= 2 else 0.0`. -/
noncomputable def brand_spoof_flag (u : List Char) : ℝ :=
  if 0 < min_brand_distance (parse_url_parts u).registered_domain ∧
      min_brand_distance (parse_url_parts u).registered_domain ≤ 2
  then 1 else 0

/-- F22 `brand_distance_norm`: `min(min_dist, 10) / 10.0`. -/
noncomputable def brand_distance_norm (u : List Char) : ℝ :=
  ((min (min_brand_distance (parse_url_parts u).registered_domain) 10 : ℕ) : ℝ) / 10

/-- F23 `brand_in_subdomain_only`: a brand occurs in the subdomain and no
brand occurs in the first label of the registered domain. -/
noncomputable def brand_in_subdomain_only (u : List Char) : ℝ :=
  if (BRANDS.any fun b => subStr b (parse_url_parts u).subdomain) &&
      !(BRANDS.any fun b =>
        subStr b ((splitOnCh '.' (parse_url_parts u).registered_domain).headD []))
  then 1 else 0

/-- F24 `has_login_kw`. -/
noncomputable def has_login_kw (u : List Char) : ℝ :=
  if login_kw.any (fun k => subStr k (pyLowerS u)) then 1 else 0

/-- F25 `has_trust_kw_in_domain` (checked against the host). -/
noncomputable def has_trust_kw_in_domain (u : List Char) : ℝ :=
  if trust_kw.any (fun k => subStr k (parse_url_parts u).host) then 1 else 0

/-- F26 `has_payment_kw`. -/
noncomputable def has_payment_kw (u : List Char) : ℝ :=
  if pay_kw.any (fun k => subStr k (pyLowerS u)) then 1 else 0

/-- F27 `has_free_kw`. -/
noncomputable def has_free_kw (u : List Char) : ℝ :=
  if free_kw.any (fun k => subStr k (pyLowerS u)) then 1 else 0

/-- F28 `has_fraud_kw`. -/
noncomputable def has_fraud_kw (u : List Char) : ℝ :=
  if fraud_kw.any (fun k => subStr k (pyLowerS u)) then 1 else 0

/-- F29 `keyword_density`: `min(hits / 6.0, 1.0)` over the union of the
five lexicons (the set union counts "helpdesk" once). -/
noncomputable def keyword_density (u : List Char) : ℝ :=
  min ((((login_kw ++ trust_kw ++ pay_kw ++ free_kw ++ fraud_kw).dedup).countP
      (fun k => subStr k (pyLowerS u)) : ℝ) / 6) 1

/-- F30 `hyphen_in_domain`. -/
noncomputable def hyphen_in_domain (u : List Char) : ℝ :=
  if (parse_url_parts u).host.contains '-' then 1 else 0

/-- F31 `double_extension`: the path contains `.doc-ext.exe-ext`
(case-insensitive). -/
noncomputable def double_extension (u : List Char) : ℝ :=
  if docExts.any (fun d => exeExts.any fun e =>
      subStr ('.' :: d ++ '.' :: e) (pyLowerS (parse_url_parts u).path))
  then 1 else 0

/-- F32 `pct_encoding_ratio`: `%XX`-count / max(len(url), 1). -/
noncomputable def pct_encoding_feat (u : List Char) : ℝ :=
  (pctCount u : ℝ) / ((max u.length 1 : ℕ) : ℝ)

/-- F33 `heavy_encoding`: `min(pct_count / max(len(url)/3, 1), 1.0)` (the
inner division is Python float division). -/
noncomputable def heavy_encoding (u : List Char) : ℝ :=
  min ((pctCount u : ℝ) / max ((u.length : ℝ) / 3) 1) 1

/-- F34 `query_param_count`: number of `&`-separated segments, 0 if no
query. -/
noncomputable def query_param_count (u : List Char) : ℝ :=
  if (parse_url_parts u).query.isEmpty then 0
  else ((splitOnCh '&' (parse_url_parts u).query).length : ℝ)

/-- F35 `has_fragment`. -/
noncomputable def has_fragment (u : List Char) : ℝ :=
  if (parse_url_parts u).fragment.isEmpty then 0 else 1

/-- F36 `is_data_uri`: lowercased URL starts with `data:`. -/
noncomputable def is_data_uri (u : List Char) : ℝ :=
  if isPrefixL ("data:".toList) (pyLowerS u) then 1 else 0

/-- F37 `path_traversal`: `..` in path or `%2e%2e` in lowercased URL. -/
noncomputable def path_traversal (u : List Char) : ℝ :=
  if subStr ("..".toList) (parse_url_parts u).path ||
      subStr ("%2e%2e".toList) (pyLowerS u) then 1 else 0

/-- F38 `suspicious_tld`. -/
noncomputable def suspicious_tld (u : List Char) : ℝ :=
  if SUSPICIOUS_TLDS.contains (parse_url_parts u).tld then 1 else 0

/-- F39 `tld_length`. -/
noncomputable def tld_length (u : List Char) : ℝ :=
  ((parse_url_parts u).tld.length : ℝ)

/-- F40 `has_subdomain`. -/
noncomputable def has_subdomain (u : List Char) : ℝ :=
  if (parse_url_parts u).subdomain.isEmpty then 0 else 1

/-- F41 `numeric_domain`: `re.fullmatch(r"[\d.]+", host)`. -/
noncomputable def numeric_domain (u : List Char) : ℝ :=
  if !(parse_url_parts u).host.isEmpty &&
      (parse_url_parts u).host.all (fun c => c.isDigit || c == '.')
  then 1 else 0

/-- F42 `url_compression_ratio`: distinct characters / max(len(url), 1). -/
noncomputable def url_compression_feat (u : List Char) : ℝ :=
  (u.dedup.length : ℝ) / ((max u.length 1 : ℕ) : ℝ)

/-- F43 `vowel_ratio`: vowels / max(alphabetic count, 1), both over the
host. -/
noncomputable def vowel_ratio_feat (u : List Char) : ℝ :=
  ((parse_url_parts u).host.countP (fun c => ['a', 'e', 'i', 'o', 'u'].contains c) : ℝ) /
    ((max ((parse_url_parts u).host.countP isAsciiAlphaB) 1 : ℕ) : ℝ)

/-- F44 `max_consonant_run`. -/
noncomputable def max_consonant_run (u : List Char) : ℝ :=
  (max_consecutive_consonants (parse_url_parts u).host : ℝ)

/-- F45 `is_short_url`: registered domain is a known shortener. -/
noncomputable def is_short_url (u : List Char) : ℝ :=
  if SHORT_URL_SERVICES.contains (parse_url_parts u).registered_domain then 1 else 0

/-- F46 `base64_in_query`: the query contains a run of at least 20 base64
characters. -/
noncomputable def base64_in_query (u : List Char) : ℝ :=
  if 20 ≤ maxRunAux isBase64B (parse_url_parts u).query 0 0 then 1 else 0

/-- F47 `path_depth`: `path.count("/")`. -/
noncomputable def path_depth (u : List Char) : ℝ :=
  ((parse_url_parts u).path.count '/' : ℝ)

/-- F48 `upi_vpa_present`: the VPA pattern matches somewhere in the URL. -/
noncomputable def upi_vpa_present (u : List Char) : ℝ :=
  if (upiScan u).isEmpty then 0 else 1

/-- F49 `suspicious_upi_vpa`: some VPA match has an unknown handle or a
fraud-pressure token in its local part (the source's loop breaks at the
first such match; the flag's value is whether one exists). -/
noncomputable def suspicious_upi_vpa (u : List Char) : ℝ :=
  if (upiScan u).any (fun m =>
      !(LEGIT_UPI_HANDLES.contains (pyLowerS m.2)) ||
        fraud_pfx.any fun fp => subStr fp (pyLowerS m.1))
  then 1 else 0

/-- F50 `upi_collect_request`: `upi://pay`, `pa=.*@` (a `.` does not cross
a newline) or `vpa=` in the lowercased URL. -/
noncomputable def upi_collect_request (u : List Char) : ℝ :=
  if subStr ("upi://pay".toList) (pyLowerS u) ||
      (splitOnCh '\n' (pyLowerS u)).any paCollect ||
      subStr ("vpa=".toList) (pyLowerS u)
  then 1 else 0

/-- F51 `dangerous_extension`: the extension extracted from the path is in
the dangerous set (an absent match gives `""`, never in the set). -/
noncomputable def dangerous_extension (u : List Char) : ℝ :=
  if DANGEROUS_EXTENSIONS.contains (pyLowerS ((extScan (parse_url_parts u).path).getD []))
  then 1 else 0

/-- F52 `admin_path`: one of the four admin path segments occurs in the
lowercased URL. -/
noncomputable def admin_path (u : List Char) : ℝ :=
  if subStr ("/wp-admin/".toList) (pyLowerS u) ||
      subStr ("/admin/".toList) (pyLowerS u) ||
      subStr ("/phpmyadmin/".toList) (pyLowerS u) ||
      subStr ("/cgi-bin/".toList) (pyLowerS u)
  then 1 else 0

/-- F53 `open_redirect`: a redirect-style parameter immediately followed by
`=http` in the lowercased URL. -/
noncomputable def open_redirect (u : List Char) : ℝ :=
  if redirect_kw.any (fun k => subStr (k ++ ("=http".toList)) (pyLowerS u))
  then 1 else 0

/-- F54 `max_char_repeat_ratio`: the largest multiplicity of a single
character of the host / max(len(host), 1). -/
noncomputable def max_char_repeat_feat (u : List Char) : ℝ :=
  ((pyMaxListD 0 ((parse_url_parts u).host.dedup.map
      fun ch => (parse_url_parts u).host.count ch) : ℕ) : ℝ) /
    ((max (parse_url_parts u).host.length 1 : ℕ) : ℝ)

/-- F55 `hex_token_in_url`: a run of at least 32 characters of `[a-f0-9]`
in the lowercased URL. -/
noncomputable def hex_token_in_url (u : List Char) : ℝ :=
  if 32 ≤ maxRunAux isHexLowB (pyLowerS u) 0 0 then 1 else 0

/-- Embedding of `extract_features` (lines 141-259): the ordered 56-vector. -/
noncomputable def extract_features (url : List Char) : List ℝ :=
  [url_length url, domain_length url, path_length url, query_length url,
   dot_count url, hyphen_count url, underscore_count url, slash_count url,
   at_count url, digit_count url, digit_ratio_feat url, is_https url,
   ip_in_url url, is_punycode url, subdomain_depth url, port_anomaly url,
   url_entropy url, domain_entropy url, path_entropy url,
   domain_bigram_entropy url, domain_trigram_entropy url,
   brand_spoof_flag url, brand_distance_norm url, brand_in_subdomain_only url,
   has_login_kw url, has_trust_kw_in_domain url, has_payment_kw url,
   has_free_kw url, has_fraud_kw url, keyword_density url,
   hyphen_in_domain url, double_extension url, pct_encoding_feat url,
   heavy_encoding url, query_param_count url, has_fragment url,
   is_data_uri url, path_traversal url, suspicious_tld url, tld_length url,
   has_subdomain url, numeric_domain url, url_compression_feat url,
   vowel_ratio_feat url, max_consonant_run url, is_short_url url,
   base64_in_query url, path_depth url, upi_vpa_present url,
   suspicious_upi_vpa url, upi_collect_request url, dangerous_extension url,
   admin_path url, open_redirect url, max_char_repeat_feat url,
   hex_token_in_url url]


/-! ## Reference definitions for the Levenshtein proofs

`levRec` is the textbook recursion; the Wagner-Fischer loops above are
proved equal to it (on reversed inputs, matching the direction in which the
table is filled).  `EditRel a b n` is the edit-script relation: `a` can be
turned into `b` by `n` copy/substitute/insert/delete steps. -/

/-- Textbook recursive Levenshtein distance, with the minimum written in
the same shape as line 82 of the source. -/
def levRec : List Char → List Char → Nat
  | [], b => b.length
  | a, [] => a.length
  | x :: a, y :: b =>
    min (levRec a (y :: b) + 1)
      (min (levRec (x :: a) b + 1) (levRec a b + if x = y then 0 else 1))
termination_by a b => a.length + b.length
decreasing_by
  all_goals simp
  all_goals omega

/-- Edit scripts: `EditRel a b n` holds when `a` rewrites to `b` using `n`
single-character substitutions, insertions and deletions. -/
inductive EditRel : List Char → List Char → Nat → Prop where
  | nil : EditRel [] [] 0
  | copy (x : Char) {a b : List Char} {n : Nat} :
      EditRel a b n → EditRel (x :: a) (x :: b) n
  | subst (x y : Char) {a b : List Char} {n : Nat} :
      EditRel a b n → EditRel (x :: a) (y :: b) (n + 1)
  | ins (y : Char) {a b : List Char} {n : Nat} :
      EditRel a b n → EditRel a (y :: b) (n + 1)
  | del (x : Char) {a b : List Char} {n : Nat} :
      EditRel a b n → EditRel (x :: a) b (n + 1)

/-- The tail of the Wagner-Fischer row that corresponds to the processed
(reversed) prefix `ra` of `a`, the consumed (reversed) prefix `rb` of `b`,
and the remaining characters `bs` of `b`: the entry for each extension of
`rb` by one more character of `bs`. -/
def rowFrom (ra rb : List Char) : List Char → List Nat
  | [] => []
  | y :: ys => levRec ra (y :: rb) :: rowFrom ra (y :: rb) ys


/-! ## Theorems.  First: the Levenshtein edit-script theory. -/

/-- Unfolding of `levRec` on an empty first argument. -/
theorem levRec_nil_left (b : List Char) : levRec [] b = b.length := by
  rw [levRec]

/-- Unfolding of `levRec` on an empty second argument. -/
theorem levRec_nil_right (a : List Char) : levRec a [] = a.length := by
  cases a with
  | nil => rw [levRec]
  | cons x a =>
    rw [levRec]
    simp

/-- Unfolding of `levRec` on two non-empty arguments. -/
theorem levRec_cons_cons (x y : Char) (a b : List Char) :
    levRec (x :: a) (y :: b) =
      min (levRec a (y :: b) + 1)
        (min (levRec (x :: a) b + 1) (levRec a b + if x = y then 0 else 1)) := by
  rw [levRec]

/-- Everything can be built from nothing by insertions. -/
theorem editRel_ins_all (b : List Char) : EditRel [] b b.length := by
  induction b with
  | nil => exact .nil
  | cons y b ih => exact .ins y ih

/-- Everything can be erased by deletions. -/
theorem editRel_del_all (a : List Char) : EditRel a [] a.length := by
  induction a with
  | nil => exact .nil
  | cons x a ih => exact .del x ih

/-- The recursive distance is realized by an edit script. -/
theorem editRel_levRec (a b : List Char) : EditRel a b (levRec a b) := by
  match a, b with
  | [], b => rw [levRec_nil_left]; exact editRel_ins_all b
  | x :: a, [] => rw [levRec_nil_right]; exact editRel_del_all (x :: a)
  | x :: a, y :: b =>
    have h1 := editRel_levRec a (y :: b)
    have h2 := editRel_levRec (x :: a) b
    have h3 := editRel_levRec a b
    rw [levRec_cons_cons]
    rcases min_choice (levRec a (y :: b) + 1)
        (min (levRec (x :: a) b + 1) (levRec a b + if x = y then 0 else 1)) with h | h <;>
      rw [h]
    · exact .del x h1
    · rcases min_choice (levRec (x :: a) b + 1)
          (levRec a b + if x = y then 0 else 1) with h' | h' <;> rw [h']
      · exact .ins y h2
      · by_cases hxy : x = y
        · subst hxy
          simpa using EditRel.copy x h3
        · rw [if_neg hxy]
          exact .subst x y h3
termination_by a.length + b.length
decreasing_by
  all_goals simp
  all_goals omega

/-- The recursive distance is minimal among edit scripts. -/
theorem levRec_le_of_editRel {a b : List Char} {n : Nat}
    (h : EditRel a b n) : levRec a b ≤ n := by
  induction h with
  | nil => simp [levRec_nil_left]
  | copy x h ih =>
    rename_i a' b' n'
    rw [levRec_cons_cons]
    have he : (if x = x then 0 else 1) = 0 := if_pos rfl
    have h1 := min_le_right (levRec a' (x :: b') + 1)
      (min (levRec (x :: a') b' + 1) (levRec a' b' + if x = x then 0 else 1))
    have h2 := min_le_right (levRec (x :: a') b' + 1)
      (levRec a' b' + if x = x then 0 else 1)
    omega
  | subst x y h ih =>
    rename_i a' b' n'
    rw [levRec_cons_cons]
    have hle : (if x = y then 0 else 1) ≤ 1 := by split <;> omega
    have h1 := min_le_right (levRec a' (y :: b') + 1)
      (min (levRec (x :: a') b' + 1) (levRec a' b' + if x = y then 0 else 1))
    have h2 := min_le_right (levRec (x :: a') b' + 1)
      (levRec a' b' + if x = y then 0 else 1)
    omega
  | ins y h ih =>
    rename_i a' b' n'
    cases a' with
    | nil => rw [levRec_nil_left] at *; simp at *; omega
    | cons x a'' =>
      rw [levRec_cons_cons]
      have := min_le_right (levRec a'' (y :: b') + 1)
        (min (levRec (x :: a'') b' + 1) (levRec a'' b' + if x = y then 0 else 1))
      have := min_le_left (levRec (x :: a'') b' + 1)
        (levRec a'' b' + if x = y then 0 else 1)
      omega
  | del x h ih =>
    rename_i a' b' n'
    cases b' with
    | nil => rw [levRec_nil_right] at *; simp at *; omega
    | cons y b'' =>
      rw [levRec_cons_cons]
      have := min_le_left (levRec a' (y :: b'') + 1)
        (min (levRec (x :: a') b'' + 1) (levRec a' b'' + if x = y then 0 else 1))
      omega

/-- Edit scripts reverse. -/
theorem editRel_symm {a b : List Char} {n : Nat}
    (h : EditRel a b n) : EditRel b a n := by
  induction h with
  | nil => exact .nil
  | copy x h ih => exact .copy x ih
  | subst x y h ih => exact .subst y x ih
  | ins y h ih => exact .del y ih
  | del x h ih => exact .ins x ih

/-- Edit scripts compose, adding the step counts (auxiliary form with an
explicit bound on the total length, used for the induction). -/
theorem editRel_comp_aux : ∀ (N : Nat) (a b c : List Char) (m n : Nat),
    a.length + b.length + c.length ≤ N →
    EditRel a b m → EditRel b c n → ∃ k, k ≤ m + n ∧ EditRel a c k := by
  intro N
  induction N with
  | zero =>
    intro a b c m n hN h1 h2
    cases a with
    | cons x xs => simp at hN
    | nil =>
      cases b with
      | cons y ys => simp at hN
      | nil =>
        cases c with
        | cons z zs => simp at hN
        | nil =>
          cases h1
          cases h2
          exact ⟨0, by omega, .nil⟩
  | succ N ih =>
    intro a b c m n hN h1 h2
    cases h2 with
    | nil => exact ⟨m, by omega, h1⟩
    | ins z h2' =>
      obtain ⟨k, hk, hrel⟩ := ih _ _ _ _ _ (by simp at hN ⊢; omega) h1 h2'
      exact ⟨k + 1, by omega, .ins z hrel⟩
    | copy y h2' =>
      cases h1 with
      | copy x h1' =>
        obtain ⟨k, hk, hrel⟩ := ih _ _ _ _ _ (by simp at hN ⊢; omega) h1' h2'
        exact ⟨k, by omega, .copy y hrel⟩
      | subst x y2 h1' =>
        obtain ⟨k, hk, hrel⟩ := ih _ _ _ _ _ (by simp at hN ⊢; omega) h1' h2'
        exact ⟨k + 1, by omega, .subst x y hrel⟩
      | ins y2 h1' =>
        obtain ⟨k, hk, hrel⟩ := ih _ _ _ _ _ (by simp at hN ⊢; omega) h1' h2'
        exact ⟨k + 1, by omega, .ins y hrel⟩
      | del x h1' =>
        obtain ⟨k, hk, hrel⟩ :=
          ih _ _ _ _ _ (by simp at hN ⊢; omega) h1' (EditRel.copy y h2')
        exact ⟨k + 1, by omega, .del x hrel⟩
    | subst y z h2' =>
      cases h1 with
      | copy x h1' =>
        obtain ⟨k, hk, hrel⟩ := ih _ _ _ _ _ (by simp at hN ⊢; omega) h1' h2'
        exact ⟨k + 1, by omega, .subst y z hrel⟩
      | subst x y2 h1' =>
        obtain ⟨k, hk, hrel⟩ := ih _ _ _ _ _ (by simp at hN ⊢; omega) h1' h2'
        exact ⟨k + 1, by omega, .subst x z hrel⟩
      | ins y2 h1' =>
        obtain ⟨k, hk, hrel⟩ := ih _ _ _ _ _ (by simp at hN ⊢; omega) h1' h2'
        exact ⟨k + 1, by omega, .ins z hrel⟩
      | del x h1' =>
        obtain ⟨k, hk, hrel⟩ :=
          ih _ _ _ _ _ (by simp at hN ⊢; omega) h1' (EditRel.subst y z h2')
        exact ⟨k + 1, by omega, .del x hrel⟩
    | del y h2' =>
      cases h1 with
      | copy x h1' =>
        obtain ⟨k, hk, hrel⟩ := ih _ _ _ _ _ (by simp at hN ⊢; omega) h1' h2'
        exact ⟨k + 1, by omega, .del y hrel⟩
      | subst x y2 h1' =>
        obtain ⟨k, hk, hrel⟩ := ih _ _ _ _ _ (by simp at hN ⊢; omega) h1' h2'
        exact ⟨k + 1, by omega, .del x hrel⟩
      | ins y2 h1' =>
        obtain ⟨k, hk, hrel⟩ := ih _ _ _ _ _ (by simp at hN ⊢; omega) h1' h2'
        exact ⟨k, by omega, hrel⟩
      | del x h1' =>
        obtain ⟨k, hk, hrel⟩ :=
          ih _ _ _ _ _ (by simp at hN ⊢; omega) h1' (EditRel.del y h2')
        exact ⟨k + 1, by omega, .del x hrel⟩

/-- Edit scripts compose, adding the step counts. -/
theorem editRel_comp {a b c : List Char} {m n : Nat}
    (h1 : EditRel a b m) (h2 : EditRel b c n) :
    ∃ k, k ≤ m + n ∧ EditRel a c k :=
  editRel_comp_aux (a.length + b.length + c.length) a b c m n (le_refl _) h1 h2

/-- Only the empty edit script connects equal strings at cost zero. -/
theorem eq_of_editRel_zero {a b : List Char} {n : Nat}
    (h : EditRel a b n) (hn : n = 0) : a = b := by
  induction h with
  | nil => rfl
  | copy x h ih => rw [ih hn]
  | subst x y h ih => exact absurd hn (Nat.succ_ne_zero _)
  | ins y h ih => exact absurd hn (Nat.succ_ne_zero _)
  | del x h ih => exact absurd hn (Nat.succ_ne_zero _)

/-- The identity edit script. -/
theorem editRel_refl (a : List Char) : EditRel a a 0 := by
  induction a with
  | nil => exact .nil
  | cons x a ih => exact .copy x ih

/-- `levRec` is symmetric. -/
theorem levRec_symm (a b : List Char) : levRec a b = levRec b a :=
  Nat.le_antisymm
    (levRec_le_of_editRel (editRel_symm (editRel_levRec b a)))
    (levRec_le_of_editRel (editRel_symm (editRel_levRec a b)))

/-- `levRec` is zero exactly on equal strings. -/
theorem levRec_eq_zero_iff (a b : List Char) : levRec a b = 0 ↔ a = b := by
  constructor
  · intro h
    exact eq_of_editRel_zero (editRel_levRec a b) h
  · rintro rfl
    exact Nat.le_zero.mp (levRec_le_of_editRel (editRel_refl a))

/-- `levRec` satisfies the triangle inequality. -/
theorem levRec_triangle (a b c : List Char) :
    levRec a c ≤ levRec a b + levRec b c := by
  obtain ⟨k, hk, hrel⟩ :=
    editRel_comp (editRel_levRec a b) (editRel_levRec b c)
  exact le_trans (levRec_le_of_editRel hrel) hk


/-! ## The Wagner-Fischer loops compute `levRec` (on reversed inputs,
matching the direction in which the table is filled). -/

/-- A Wagner-Fischer inner loop pass over the previous row of `levRec`
values yields the next row. -/
theorem wfInner_spec (x : Char) (ra : List Char) :
    ∀ (bs rb : List Char),
      wfInner x bs (rowFrom ra rb bs) (levRec ra rb) (levRec (x :: ra) rb) =
        rowFrom (x :: ra) rb bs := by
  intro bs
  induction bs with
  | nil => intro rb; rfl
  | cons y ys ih =>
    intro rb
    rw [rowFrom, rowFrom, wfInner]
    rw [← levRec_cons_cons x y ra rb]
    rw [ih (y :: rb)]

/-- The outer loop turns the row of a processed prefix into the row of the
whole word (prefixes are tracked in reversed form). -/
theorem wfLoop_spec (b : List Char) :
    ∀ (as ra : List Char),
      wfLoop b as (levRec ra [] :: rowFrom ra [] b) (ra.length + 1) =
        levRec (as.reverse ++ ra) [] :: rowFrom (as.reverse ++ ra) [] b := by
  intro as
  induction as with
  | nil => intro ra; rw [wfLoop]; simp
  | cons x xs ih =>
    intro ra
    rw [wfLoop]
    have hlen : ra.length + 1 = levRec (x :: ra) [] := by
      rw [levRec_nil_right]
      simp
    simp only [List.tail_cons, List.headD_cons]
    rw [hlen, wfInner_spec x ra b []]
    have hlen2 : levRec (x :: ra) [] + 1 = (x :: ra).length + 1 := by
      rw [levRec_nil_right]
    rw [hlen2, ih (x :: ra)]
    simp

/-- The initial row (the one for the empty prefix) is `range (n + 1)`. -/
theorem rowFrom_nil :
    ∀ (bs rb : List Char), rowFrom [] rb bs = List.range' (rb.length + 1) bs.length := by
  intro bs
  induction bs with
  | nil => intro rb; rfl
  | cons y ys ih =>
    intro rb
    rw [rowFrom, levRec_nil_left, ih (y :: rb)]
    simp [List.range']

/-- The last entry of a row is the `levRec` value of the whole second word
(in reversed form). -/
theorem row_getLast (ra : List Char) :
    ∀ (bs rb : List Char) (d : Nat),
      (levRec ra rb :: rowFrom ra rb bs).getLastD d = levRec ra (bs.reverse ++ rb) := by
  intro bs
  induction bs with
  | nil => intro rb d; rfl
  | cons y ys ih =>
    intro rb d
    rw [rowFrom]
    have := ih (y :: rb) (levRec ra rb)
    simp only [List.getLastD_cons] at this ⊢
    rw [this]
    simp

/-- The Wagner-Fischer distance equals the recursive distance of the
reversed words. -/
theorem levDP_eq (a b : List Char) : levDP a b = levRec a.reverse b.reverse := by
  rw [levDP]
  have hinit : List.range (b.length + 1) = levRec [] [] :: rowFrom [] [] b := by
    rw [rowFrom_nil b []]
    rw [List.range_eq_range']
    rw [levRec_nil_left]
    rfl
  rw [hinit]
  rw [show (1 : Nat) = ([] : List Char).length + 1 from rfl]
  rw [wfLoop_spec b a []]
  rw [row_getLast (a.reverse ++ []) b []]
  simp

/-- The source `levenshtein` (swap plus Wagner-Fischer) computes `levRec`
of the reversed inputs. -/
theorem levenshtein_eq_levRec_rev (a b : List Char) :
    levenshtein a b = levRec a.reverse b.reverse := by
  rw [levenshtein]
  split
  · rw [levDP_eq, levRec_symm]
  · rw [levDP_eq]


/-! ## Claim theorems -/

/-- Claim C6: the source `levenshtein` function is symmetric, is zero
exactly on equal strings, and satisfies the triangle inequality. -/
theorem c6_levenshtein_is_a_metric :
    (∀ a b : List Char, levenshtein a b = levenshtein b a) ∧
    (∀ a b : List Char, levenshtein a b = 0 ↔ a = b) ∧
    (∀ a b c : List Char, levenshtein a c ≤ levenshtein a b + levenshtein b c) := by
  refine ⟨?_, ?_, ?_⟩
  · intro a b
    rw [levenshtein_eq_levRec_rev, levenshtein_eq_levRec_rev, levRec_symm]
  · intro a b
    rw [levenshtein_eq_levRec_rev, levRec_eq_zero_iff, List.reverse_inj]
  · intro a b c
    rw [levenshtein_eq_levRec_rev, levenshtein_eq_levRec_rev,
      levenshtein_eq_levRec_rev]
    exact levRec_triangle a.reverse b.reverse c.reverse

/-- Claim C1: for every input string, `extract_features` returns a vector
of exactly 56 real values.  Totality ("never raises") holds by
construction of the embedding: `parse_url_parts` absorbs the only fallible
step (`urlparse`, embedded as `Except`) into its fallback dictionary, and
every division in the 56 entries carries the source's `max _ 1` guard, so
each entry is a well-defined real number (the model has no NaN or
infinity). -/
theorem c1_extract_features_length (url : List Char) :
    (extract_features url).length = 56 := rfl

/-- Claim C4: `extract_features` is deterministic.  The embedding is a
pure function of the input string alone — the source reads only its
argument and module-level constants and holds no state across calls — so
two calls on the identical string are definitionally equal. -/
theorem c4_extract_features_deterministic (url : List Char) :
    extract_features url = extract_features url := rfl


/-- Helper: in a duplicate-free list every member has multiplicity one
(stated for `Char` with its ambient `BEq` instance). -/
theorem count_one_of_nodup {s : List Char} (h : s.Nodup) {a : Char}
    (ha : a ∈ s) : s.count a = 1 := by
  induction s with
  | nil => cases ha
  | cons x xs ih =>
    rw [List.count_cons]
    rcases List.mem_cons.mp ha with rfl | hmem
    · have hx : a ∉ xs := (List.nodup_cons.mp h).1
      rw [List.count_eq_zero.mpr hx]
      simp
    · rw [ih (List.nodup_cons.mp h).2 hmem]
      have hax : x ≠ a := by
        rintro rfl
        exact (List.nodup_cons.mp h).1 hmem
      simp [hax]

/-- Helper: the sum of a constant real over a list. -/
theorem sum_map_const_real {α : Type} (l : List α) (k : ℝ) :
    (l.map fun _ => k).sum = (l.length : ℝ) * k := by
  induction l with
  | nil => simp
  | cons a l ih =>
    simp [ih]
    ring

/-- Helper: the entropy of a duplicate-free string is `log₂` of its
length. -/
theorem shannon_entropy_of_nodup (s : List Char) (h : s.Nodup) :
    shannon_entropy s = Real.logb 2 (s.length : ℝ) := by
  rcases eq_or_ne s [] with rfl | hne
  · rw [shannon_entropy, if_pos rfl]
    simp [Real.logb]
  · rw [shannon_entropy, if_neg hne, freqEntropy]
    rw [List.dedup_eq_self.mpr h]
    have hmap : (s.map fun c =>
        ((s.count c : ℝ) / (s.length : ℝ)) *
          Real.logb 2 ((s.count c : ℝ) / (s.length : ℝ))) =
        s.map fun _ =>
          ((1 : ℝ) / (s.length : ℝ)) * Real.logb 2 ((1 : ℝ) / (s.length : ℝ)) := by
      apply List.map_congr_left
      intro a ha
      rw [count_one_of_nodup h ha]
      norm_num
    rw [hmap, sum_map_const_real]
    have hn : (s.length : ℝ) ≠ 0 := by
      have := List.length_pos.mpr hne
      positivity
    rw [one_div, Real.logb_inv]
    field_simp

/-- Claim C5: `shannon_entropy` follows the Shannon formula: it is `0.0`
on the empty string and on `"aaaa"`, equals `log₂ n` on any
duplicate-free string of length `n`, and `char_ngram_entropy s n` is
`0.0` whenever `len(s) < n`. -/
theorem c5_entropy_properties :
    shannon_entropy [] = 0 ∧
    shannon_entropy ['a', 'a', 'a', 'a'] = 0 ∧
    (∀ s : List Char, s.Nodup → shannon_entropy s = Real.logb 2 (s.length : ℝ)) ∧
    (∀ (s : List Char) (n : Nat), s.length < n → char_ngram_entropy s n = 0) := by
  refine ⟨?_, ?_, fun s h => shannon_entropy_of_nodup s h, fun s n h => ?_⟩
  · rw [shannon_entropy, if_pos rfl]
  · have hd : (['a', 'a', 'a', 'a'] : List Char).dedup = ['a'] := by decide
    have hc : (['a', 'a', 'a', 'a'] : List Char).count 'a' = 4 := by decide
    rw [shannon_entropy, if_neg (by simp), freqEntropy, hd]
    simp only [List.map_cons, List.map_nil, List.sum_cons, List.sum_nil, hc]
    norm_num
  · rw [char_ngram_entropy, if_pos h]

/-- Witness for C5: the hypothesis-bearing conjuncts applied at concrete
inputs — `"abc"` is duplicate-free of length 3, and a bigram entropy of a
one-character string is `0.0`. -/
theorem c5_entropy_properties_witness :
    shannon_entropy ['a', 'b', 'c'] = Real.logb 2 (3 : ℝ) ∧
    char_ngram_entropy ['a'] 2 = 0 := by
  constructor
  · have := c5_entropy_properties.2.2.1 ['a', 'b', 'c'] (by decide)
    simpa using this
  · exact c5_entropy_properties.2.2.2 ['a'] 2 (by decide)


/-! ## Parsing lemmas for claims C2 and C10 -/

/-- Helper: a split is never the empty list of parts. -/
theorem splitOnCh_ne_nil (sep : Char) (s : List Char) : splitOnCh sep s ≠ [] := by
  cases s with
  | nil => simp [splitOnCh]
  | cons c cs =>
    rw [splitOnCh]
    split
    · simp
    · split <;> simp

/-- Helper: pulling the head character out of the first part of a join. -/
theorem joinDots_cons_cons (c : Char) (r : List Char) (rs : List (List Char)) :
    joinDots ((c :: r) :: rs) = c :: joinDots (r :: rs) := by
  cases rs with
  | nil => rfl
  | cons r2 rs2 => rfl

/-- Helper: joining the parts of a `.`-split restores the string. -/
theorem joinDots_splitOnCh (s : List Char) : joinDots (splitOnCh '.' s) = s := by
  induction s with
  | nil => rfl
  | cons c cs ih =>
    rw [splitOnCh]
    by_cases hc : c = '.'
    · rw [if_pos hc]
      obtain ⟨r, rs, hr⟩ : ∃ r rs, splitOnCh '.' cs = r :: rs := by
        cases h : splitOnCh '.' cs with
        | nil => exact absurd h (splitOnCh_ne_nil '.' cs)
        | cons r rs => exact ⟨r, rs, rfl⟩
      rw [hr]
      rw [hr] at ih
      show ('.' : Char) :: joinDots (r :: rs) = c :: cs
      rw [ih, hc]
    · rw [if_neg hc]
      cases h : splitOnCh '.' cs with
      | nil => exact absurd h (splitOnCh_ne_nil '.' cs)
      | cons r rs =>
        rw [h] at ih
        show joinDots ((c :: r) :: rs) = c :: cs
        rw [joinDots_cons_cons, ih]

/-- Helper: a join splits across `take`/`drop` at any interior position. -/
theorem joinDots_take_drop : ∀ (l : List (List Char)) (k : Nat), 0 < k → k < l.length →
    joinDots (l.take k) ++ '.' :: joinDots (l.drop k) = joinDots l := by
  intro l
  induction l with
  | nil =>
    intro k h0 hlt
    simp at hlt
  | cons x xs ih =>
    intro k h0 hlt
    cases k with
    | zero => omega
    | succ k' =>
      cases xs with
      | nil => simp at hlt
      | cons y ys =>
        cases k' with
        | zero => simp [joinDots]
        | succ k'' =>
          have hlt' : k'' + 1 < (y :: ys).length := by
            simp at hlt ⊢
            omega
          have hih := ih (k'' + 1) (by omega) hlt'
          simp only [List.take_succ_cons, List.drop_succ_cons] at hih ⊢
          simp [joinDots, List.append_assoc, hih]

/-- Helper: the registered-domain/subdomain fields computed from a host
always reassemble to the host. -/
theorem reg_sub_reconstruct (host reg sub : List Char)
    (hreg : reg = if 2 ≤ (splitOnCh '.' host).length
      then joinDots ((splitOnCh '.' host).drop ((splitOnCh '.' host).length - 2))
      else host)
    (hsub : sub = if 2 < (splitOnCh '.' host).length
      then joinDots ((splitOnCh '.' host).take ((splitOnCh '.' host).length - 2))
      else []) :
    ((sub = [] ∧ reg = host) ∨ sub ++ '.' :: reg = host) ∧ reg <:+ host := by
  have hjoin := joinDots_splitOnCh host
  rcases lt_or_le ((splitOnCh '.' host).length) 2 with h2 | h2
  · rw [if_neg (by omega)] at hreg
    rw [if_neg (by omega)] at hsub
    subst hreg hsub
    exact ⟨Or.inl ⟨rfl, rfl⟩, List.suffix_refl _⟩
  · rcases eq_or_lt_of_le h2 with h2e | h2l
    · rw [if_pos h2] at hreg
      rw [if_neg (by omega)] at hsub
      rw [← h2e] at hreg
      simp only [Nat.sub_self, List.drop_zero] at hreg
      rw [hjoin] at hreg
      subst hreg hsub
      exact ⟨Or.inl ⟨rfl, rfl⟩, List.suffix_refl _⟩
    · rw [if_pos h2] at hreg
      rw [if_pos h2l] at hsub
      have hk0 : 0 < (splitOnCh '.' host).length - 2 := by omega
      have hklt : (splitOnCh '.' host).length - 2 < (splitOnCh '.' host).length := by
        omega
      have hrec := joinDots_take_drop (splitOnCh '.' host)
        ((splitOnCh '.' host).length - 2) hk0 hklt
      rw [hjoin] at hrec
      rw [← hsub, ← hreg] at hrec
      refine ⟨Or.inr hrec, ?_⟩
      refine ⟨sub ++ ['.'], ?_⟩
      rw [List.append_assoc]
      simpa using hrec

/-- Claim C10: the `ParsedURL` reconstruction invariant — either the
subdomain is empty and the registered domain is the whole host, or
subdomain `++ "." ++` registered domain is exactly the host; in both cases
the registered domain is a suffix of the host. -/
theorem c10_host_reconstruction (url : List Char) :
    (((parse_url_parts url).subdomain = [] ∧
        (parse_url_parts url).registered_domain = (parse_url_parts url).host) ∨
      (parse_url_parts url).subdomain ++ '.' :: (parse_url_parts url).registered_domain =
        (parse_url_parts url).host) ∧
    (parse_url_parts url).registered_domain <:+ (parse_url_parts url).host := by
  rw [parse_url_parts]
  cases hsplit : urlsplitM url with
  | error e =>
    exact ⟨Or.inl ⟨rfl, rfl⟩, List.suffix_refl url⟩
  | ok s =>
    apply reg_sub_reconstruct
    · rfl
    · rfl


/-- Counterexample to claim C2 as stated: `"google.com"` has no scheme and
no `//`, yet `parse_url_parts` does NOT yield the whole input as host —
`urlparse` succeeds with an empty netloc, the host comes out empty, and
the whole input lands in `path` instead. -/
theorem c2_counterexample :
    (splitScheme (sanitizeUrl ("google.com".toList))).1 = [] ∧
    isPrefixL ['/', '/'] (splitScheme (sanitizeUrl ("google.com".toList))).2 = false ∧
    (parse_url_parts ("google.com".toList)).host ≠ "google.com".toList ∧
    (parse_url_parts ("google.com".toList)).host = [] ∧
    (parse_url_parts ("google.com".toList)).path = "google.com".toList := by
  refine ⟨by decide, by decide, by decide, by decide, by decide⟩

/-- Claim C2, amended: for every degenerate input (no scheme recognized
and the remainder not starting with `//`) parsing never fails, but the
host and every host-derived field come out EMPTY — scheme, tld,
registered domain and subdomain are `""` and the port is absent — while
the input text goes to path/query/fragment.  The whole-string-as-host
fallback of the claim occurs only when the embedded `urlparse` errors
(mismatched `[`/`]` in an authority), which cannot happen for these
inputs. -/
theorem c2_degenerate_amended (url : List Char)
    (h1 : (splitScheme (sanitizeUrl url)).1 = [])
    (h2 : isPrefixL ['/', '/'] (splitScheme (sanitizeUrl url)).2 = false) :
    (parse_url_parts url).scheme = [] ∧
    (parse_url_parts url).host = [] ∧
    (parse_url_parts url).port = none ∧
    (parse_url_parts url).tld = [] ∧
    (parse_url_parts url).registered_domain = [] ∧
    (parse_url_parts url).subdomain = [] := by
  have hu : urlsplitM url = Except.ok
      ⟨(splitScheme (sanitizeUrl url)).1, [],
        (splitFragQuery (splitScheme (sanitizeUrl url)).2).1,
        (splitFragQuery (splitScheme (sanitizeUrl url)).2).2.1,
        (splitFragQuery (splitScheme (sanitizeUrl url)).2).2.2⟩ := by
    rw [urlsplitM]
    simp [h2]
  rw [parse_url_parts]
  rw [hu]
  simp [h1, pyLowerS, splitOnCh, joinDots]

/-- Witness for the amended C2 at the concrete degenerate input
`"google.com"`. -/
theorem c2_degenerate_amended_witness :
    (parse_url_parts ("google.com".toList)).scheme = [] ∧
    (parse_url_parts ("google.com".toList)).host = [] ∧
    (parse_url_parts ("google.com".toList)).port = none ∧
    (parse_url_parts ("google.com".toList)).tld = [] ∧
    (parse_url_parts ("google.com".toList)).registered_domain = [] ∧
    (parse_url_parts ("google.com".toList)).subdomain = [] :=
  c2_degenerate_amended ("google.com".toList) (by decide) (by decide)


/-! ## Access lemmas: entry `i` of the vector is feature `i` -/

/-- Helper access lemmas: each slot of `extract_features` is the
corresponding feature definition. -/
theorem ef_getD_0 (u : List Char) : (extract_features u).getD 0 0 = url_length u := by
  simp only [extract_features, List.getD_cons_succ, List.getD_cons_zero]

theorem ef_getD_1 (u : List Char) : (extract_features u).getD 1 0 = domain_length u := by
  simp only [extract_features, List.getD_cons_succ, List.getD_cons_zero]

theorem ef_getD_2 (u : List Char) : (extract_features u).getD 2 0 = path_length u := by
  simp only [extract_features, List.getD_cons_succ, List.getD_cons_zero]

theorem ef_getD_3 (u : List Char) : (extract_features u).getD 3 0 = query_length u := by
  simp only [extract_features, List.getD_cons_succ, List.getD_cons_zero]

theorem ef_getD_4 (u : List Char) : (extract_features u).getD 4 0 = dot_count u := by
  simp only [extract_features, List.getD_cons_succ, List.getD_cons_zero]

theorem ef_getD_5 (u : List Char) : (extract_features u).getD 5 0 = hyphen_count u := by
  simp only [extract_features, List.getD_cons_succ, List.getD_cons_zero]

theorem ef_getD_6 (u : List Char) : (extract_features u).getD 6 0 = underscore_count u := by
  simp only [extract_features, List.getD_cons_succ, List.getD_cons_zero]

theorem ef_getD_7 (u : List Char) : (extract_features u).getD 7 0 = slash_count u := by
  simp only [extract_features, List.getD_cons_succ, List.getD_cons_zero]

theorem ef_getD_8 (u : List Char) : (extract_features u).getD 8 0 = at_count u := by
  simp only [extract_features, List.getD_cons_succ, List.getD_cons_zero]

theorem ef_getD_9 (u : List Char) : (extract_features u).getD 9 0 = digit_count u := by
  simp only [extract_features, List.getD_cons_succ, List.getD_cons_zero]

theorem ef_getD_10 (u : List Char) : (extract_features u).getD 10 0 = digit_ratio_feat u := by
  simp only [extract_features, List.getD_cons_succ, List.getD_cons_zero]

theorem ef_getD_11 (u : List Char) : (extract_features u).getD 11 0 = is_https u := by
  simp only [extract_features, List.getD_cons_succ, List.getD_cons_zero]

theorem ef_getD_12 (u : List Char) : (extract_features u).getD 12 0 = ip_in_url u := by
  simp only [extract_features, List.getD_cons_succ, List.getD_cons_zero]

theorem ef_getD_13 (u : List Char) : (extract_features u).getD 13 0 = is_punycode u := by
  simp only [extract_features, List.getD_cons_succ, List.getD_cons_zero]

theorem ef_getD_14 (u : List Char) : (extract_features u).getD 14 0 = subdomain_depth u := by
  simp only [extract_features, List.getD_cons_succ, List.getD_cons_zero]

theorem ef_getD_15 (u : List Char) : (extract_features u).getD 15 0 = port_anomaly u := by
  simp only [extract_features, List.getD_cons_succ, List.getD_cons_zero]

theorem ef_getD_16 (u : List Char) : (extract_features u).getD 16 0 = url_entropy u := by
  simp only [extract_features, List.getD_cons_succ, List.getD_cons_zero]

theorem ef_getD_17 (u : List Char) : (extract_features u).getD 17 0 = domain_entropy u := by
  simp only [extract_features, List.getD_cons_succ, List.getD_cons_zero]

theorem ef_getD_18 (u : List Char) : (extract_features u).getD 18 0 = path_entropy u := by
  simp only [extract_features, List.getD_cons_succ, List.getD_cons_zero]

theorem ef_getD_19 (u : List Char) : (extract_features u).getD 19 0 = domain_bigram_entropy u := by
  simp only [extract_features, List.getD_cons_succ, List.getD_cons_zero]

theorem ef_getD_20 (u : List Char) : (extract_features u).getD 20 0 = domain_trigram_entropy u := by
  simp only [extract_features, List.getD_cons_succ, List.getD_cons_zero]

theorem ef_getD_21 (u : List Char) : (extract_features u).getD 21 0 = brand_spoof_flag u := by
  simp only [extract_features, List.getD_cons_succ, List.getD_cons_zero]

theorem ef_getD_22 (u : List Char) : (extract_features u).getD 22 0 = brand_distance_norm u := by
  simp only [extract_features, List.getD_cons_succ, List.getD_cons_zero]

theorem ef_getD_23 (u : List Char) : (extract_features u).getD 23 0 = brand_in_subdomain_only u := by
  simp only [extract_features, List.getD_cons_succ, List.getD_cons_zero]

theorem ef_getD_24 (u : List Char) : (extract_features u).getD 24 0 = has_login_kw u := by
  simp only [extract_features, List.getD_cons_succ, List.getD_cons_zero]

theorem ef_getD_25 (u : List Char) : (extract_features u).getD 25 0 = has_trust_kw_in_domain u := by
  simp only [extract_features, List.getD_cons_succ, List.getD_cons_zero]

theorem ef_getD_26 (u : List Char) : (extract_features u).getD 26 0 = has_payment_kw u := by
  simp only [extract_features, List.getD_cons_succ, List.getD_cons_zero]

theorem ef_getD_27 (u : List Char) : (extract_features u).getD 27 0 = has_free_kw u := by
  simp only [extract_features, List.getD_cons_succ, List.getD_cons_zero]

theorem ef_getD_28 (u : List Char) : (extract_features u).getD 28 0 = has_fraud_kw u := by
  simp only [extract_features, List.getD_cons_succ, List.getD_cons_zero]

theorem ef_getD_29 (u : List Char) : (extract_features u).getD 29 0 = keyword_density u := by
  simp only [extract_features, List.getD_cons_succ, List.getD_cons_zero]

theorem ef_getD_30 (u : List Char) : (extract_features u).getD 30 0 = hyphen_in_domain u := by
  simp only [extract_features, List.getD_cons_succ, List.getD_cons_zero]

theorem ef_getD_31 (u : List Char) : (extract_features u).getD 31 0 = double_extension u := by
  simp only [extract_features, List.getD_cons_succ, List.getD_cons_zero]

theorem ef_getD_32 (u : List Char) : (extract_features u).getD 32 0 = pct_encoding_feat u := by
  simp only [extract_features, List.getD_cons_succ, List.getD_cons_zero]

theorem ef_getD_33 (u : List Char) : (extract_features u).getD 33 0 = heavy_encoding u := by
  simp only [extract_features, List.getD_cons_succ, List.getD_cons_zero]

theorem ef_getD_34 (u : List Char) : (extract_features u).getD 34 0 = query_param_count u := by
  simp only [extract_features, List.getD_cons_succ, List.getD_cons_zero]

theorem ef_getD_35 (u : List Char) : (extract_features u).getD 35 0 = has_fragment u := by
  simp only [extract_features, List.getD_cons_succ, List.getD_cons_zero]

theorem ef_getD_36 (u : List Char) : (extract_features u).getD 36 0 = is_data_uri u := by
  simp only [extract_features, List.getD_cons_succ, List.getD_cons_zero]

theorem ef_getD_37 (u : List Char) : (extract_features u).getD 37 0 = path_traversal u := by
  simp only [extract_features, List.getD_cons_succ, List.getD_cons_zero]

theorem ef_getD_38 (u : List Char) : (extract_features u).getD 38 0 = suspicious_tld u := by
  simp only [extract_features, List.getD_cons_succ, List.getD_cons_zero]

theorem ef_getD_39 (u : List Char) : (extract_features u).getD 39 0 = tld_length u := by
  simp only [extract_features, List.getD_cons_succ, List.getD_cons_zero]

theorem ef_getD_40 (u : List Char) : (extract_features u).getD 40 0 = has_subdomain u := by
  simp only [extract_features, List.getD_cons_succ, List.getD_cons_zero]

theorem ef_getD_41 (u : List Char) : (extract_features u).getD 41 0 = numeric_domain u := by
  simp only [extract_features, List.getD_cons_succ, List.getD_cons_zero]

theorem ef_getD_42 (u : List Char) : (extract_features u).getD 42 0 = url_compression_feat u := by
  simp only [extract_features, List.getD_cons_succ, List.getD_cons_zero]

theorem ef_getD_43 (u : List Char) : (extract_features u).getD 43 0 = vowel_ratio_feat u := by
  simp only [extract_features, List.getD_cons_succ, List.getD_cons_zero]

theorem ef_getD_44 (u : List Char) : (extract_features u).getD 44 0 = max_consonant_run u := by
  simp only [extract_features, List.getD_cons_succ, List.getD_cons_zero]

theorem ef_getD_45 (u : List Char) : (extract_features u).getD 45 0 = is_short_url u := by
  simp only [extract_features, List.getD_cons_succ, List.getD_cons_zero]

theorem ef_getD_46 (u : List Char) : (extract_features u).getD 46 0 = base64_in_query u := by
  simp only [extract_features, List.getD_cons_succ, List.getD_cons_zero]

theorem ef_getD_47 (u : List Char) : (extract_features u).getD 47 0 = path_depth u := by
  simp only [extract_features, List.getD_cons_succ, List.getD_cons_zero]

theorem ef_getD_48 (u : List Char) : (extract_features u).getD 48 0 = upi_vpa_present u := by
  simp only [extract_features, List.getD_cons_succ, List.getD_cons_zero]

theorem ef_getD_49 (u : List Char) : (extract_features u).getD 49 0 = suspicious_upi_vpa u := by
  simp only [extract_features, List.getD_cons_succ, List.getD_cons_zero]

theorem ef_getD_50 (u : List Char) : (extract_features u).getD 50 0 = upi_collect_request u := by
  simp only [extract_features, List.getD_cons_succ, List.getD_cons_zero]

theorem ef_getD_51 (u : List Char) : (extract_features u).getD 51 0 = dangerous_extension u := by
  simp only [extract_features, List.getD_cons_succ, List.getD_cons_zero]

theorem ef_getD_52 (u : List Char) : (extract_features u).getD 52 0 = admin_path u := by
  simp only [extract_features, List.getD_cons_succ, List.getD_cons_zero]

theorem ef_getD_53 (u : List Char) : (extract_features u).getD 53 0 = open_redirect u := by
  simp only [extract_features, List.getD_cons_succ, List.getD_cons_zero]

theorem ef_getD_54 (u : List Char) : (extract_features u).getD 54 0 = max_char_repeat_feat u := by
  simp only [extract_features, List.getD_cons_succ, List.getD_cons_zero]

theorem ef_getD_55 (u : List Char) : (extract_features u).getD 55 0 = hex_token_in_url u := by
  simp only [extract_features, List.getD_cons_succ, List.getD_cons_zero]



/-- Claim C7: with `d` the minimum Levenshtein distance from the lowercased
first label of the registered domain to the brand lexicon, slot 21
(`brand_spoof_flag`) is `1.0` iff `0 < d ≤ 2` and slot 22
(`brand_distance_norm`) is `min(d,10)/10`; concretely, the exact brand
match `"paypal.com"` has `d = 0` (flag `0.0`) and the one-substitution
variant `"paypa1.com"` has `d = 1` (flag `1.0`). -/
theorem c7_brand_features :
    (∀ url : List Char,
      (extract_features url).getD 21 0 =
        (if 0 < min_brand_distance (parse_url_parts url).registered_domain ∧
            min_brand_distance (parse_url_parts url).registered_domain ≤ 2
         then 1 else 0) ∧
      (extract_features url).getD 22 0 =
        ((min (min_brand_distance (parse_url_parts url).registered_domain) 10 : ℕ) : ℝ) / 10) ∧
    min_brand_distance ("paypal.com".toList) = 0 ∧
    min_brand_distance ("paypa1.com".toList) = 1 ∧
    (extract_features ("http://paypal.com/".toList)).getD 21 0 = 0 ∧
    (extract_features ("http://paypa1.com/".toList)).getD 21 0 = 1 := by
  refine ⟨fun url => ⟨?_, ?_⟩, by decide, by decide, ?_, ?_⟩
  · rw [ef_getD_21, brand_spoof_flag]
  · rw [ef_getD_22, brand_distance_norm]
  · rw [ef_getD_21, brand_spoof_flag, if_neg (by decide)]
  · rw [ef_getD_21, brand_spoof_flag, if_pos (by decide)]

/-- Claim C8: slot 49 (`suspicious_upi_vpa`) is `1.0` exactly when some
match of the VPA pattern has a handle outside the legitimate-handle set or
a fraud-pressure token inside its (lowercased) local part.  The source's
`break` only short-circuits the scan at the first suspicious match; the
flag's value is exactly this existential. -/
theorem c8_suspicious_upi_iff (url : List Char) :
    (extract_features url).getD 49 0 = 1 ↔
      ∃ m ∈ upiScan url,
        LEGIT_UPI_HANDLES.contains (pyLowerS m.2) = false ∨
          ∃ fp ∈ fraud_pfx, subStr fp (pyLowerS m.1) = true := by
  rw [ef_getD_49, suspicious_upi_vpa]
  by_cases h : (upiScan url).any (fun m =>
      !(LEGIT_UPI_HANDLES.contains (pyLowerS m.2)) ||
        fraud_pfx.any fun fp => subStr fp (pyLowerS m.1)) = true
  · rw [if_pos h]
    simp only [List.any_eq_true, Bool.or_eq_true, Bool.not_eq_true'] at h
    simpa using h
  · rw [if_neg h]
    simp only [List.any_eq_true, Bool.or_eq_true, Bool.not_eq_true'] at h
    norm_num
    simpa using h

/-- Claim C9: the end-to-end example
`"http://paypal-secure.account-verify.xyz/signin"` gives `is_https = 0.0`,
`suspicious_tld = 1.0`, `hyphen_in_domain = 1.0`,
`has_trust_kw_in_domain = 1.0` and `brand_in_subdomain_only = 1.0`. -/
theorem c9_end_to_end :
    (extract_features ("http://paypal-secure.account-verify.xyz/signin".toList)).getD 11 0 = 0 ∧
    (extract_features ("http://paypal-secure.account-verify.xyz/signin".toList)).getD 38 0 = 1 ∧
    (extract_features ("http://paypal-secure.account-verify.xyz/signin".toList)).getD 30 0 = 1 ∧
    (extract_features ("http://paypal-secure.account-verify.xyz/signin".toList)).getD 25 0 = 1 ∧
    (extract_features ("http://paypal-secure.account-verify.xyz/signin".toList)).getD 23 0 = 1 := by
  refine ⟨?_, ?_, ?_, ?_, ?_⟩
  · rw [ef_getD_11, is_https, if_neg (by decide)]
  · rw [ef_getD_38, suspicious_tld, if_pos (by decide)]
  · rw [ef_getD_30, hyphen_in_domain, if_pos (by decide)]
  · rw [ef_getD_25, has_trust_kw_in_domain, if_pos (by decide)]
  · rw [ef_getD_23, brand_in_subdomain_only, if_pos (by decide)]


/-! ## Shape lemmas for claim C3 -/

/-- Helper: a 1/0 flag takes only the values 0 and 1. -/
theorem ite_zero_or_one (c : Prop) [Decidable c] :
    (if c then (1 : ℝ) else 0) = 0 ∨ (if c then (1 : ℝ) else 0) = 1 := by
  split
  · exact Or.inr rfl
  · exact Or.inl rfl

/-- Helper: a 0/1 flag (branches reversed) takes only the values 0 and 1. -/
theorem ite_zero_or_one_rev (c : Prop) [Decidable c] :
    (if c then (0 : ℝ) else 1) = 0 ∨ (if c then (0 : ℝ) else 1) = 1 := by
  split
  · exact Or.inl rfl
  · exact Or.inr rfl

/-- Helper: a quotient of naturals with numerator at most the (positive)
denominator lies in the unit interval. -/
theorem ratio_shape (a b : ℕ) (h : a ≤ b) (hb : 0 < b) :
    0 ≤ (a : ℝ) / (b : ℝ) ∧ (a : ℝ) / (b : ℝ) ≤ 1 := by
  constructor
  · positivity
  · rw [div_le_one (by exact_mod_cast hb)]
    exact_mod_cast h

/-- Helper: the number of `%XX` triplets is at most the string length. -/
theorem pctCount_le_length (s : List Char) : pctCount s ≤ s.length := by
  induction s using pctCount.induct with
  | case1 a b rest h ih =>
    rw [pctCount, if_pos h]
    simp
    omega
  | case2 a b rest h ih =>
    rw [pctCount, if_neg h]
    simp at ih ⊢
    omega
  | case3 c rest h ih =>
    rw [pctCount]
    · simp
      omega
    · exact h
  | case4 => simp [pctCount]

/-- Helper: a `max`-fold stays below any bound of its inputs. -/
theorem foldl_max_le (B : Nat) :
    ∀ (l : List Nat) (acc : Nat), acc ≤ B → (∀ x ∈ l, x ≤ B) →
      l.foldl max acc ≤ B := by
  intro l
  induction l with
  | nil =>
    intro acc h _
    simpa using h
  | cons x xs ih =>
    intro acc hacc hall
    rw [List.foldl_cons]
    apply ih
    · exact max_le hacc (hall x (by simp))
    · intro y hy
      exact hall y (by simp [hy])

/-- Helper: the Python `max(..., default=d)` model stays below any common
bound. -/
theorem pyMaxListD_le (B : Nat) (l : List Nat) (d : Nat) (hd : d ≤ B)
    (hall : ∀ x ∈ l, x ≤ B) : pyMaxListD d l ≤ B := by
  cases l with
  | nil => simpa [pyMaxListD] using hd
  | cons x xs =>
    rw [pyMaxListD]
    exact foldl_max_le B xs x (hall x (by simp)) (fun y hy => hall y (by simp [hy]))

/-- Claim C3: shape of every entry of the 56-vector — binary-flag slots are
exactly 0.0 or 1.0, count slots are casts of natural numbers, and the
eight normalized-ratio slots (digit_ratio, brand_distance_norm,
keyword_density, pct_encoding_ratio, heavy_encoding,
url_compression_ratio, vowel_ratio, max_char_repeat_ratio) lie in [0,1].
No entry is NaN or infinite: the vector lives in `List ℝ` and every
division is guarded, so this is inherent to the model. -/
theorem c3_feature_shapes (url : List Char) :
    (∀ i ∈ [11, 12, 13, 15, 21, 23, 24, 25, 26, 27, 28, 30, 31, 35, 36, 37, 38, 40, 41, 45, 46, 48, 49, 50, 51, 52, 53, 55],
      (extract_features url).getD i 0 = 0 ∨ (extract_features url).getD i 0 = 1) ∧
    (∀ i ∈ [0, 1, 2, 3, 4, 5, 6, 7, 8, 9, 14, 34, 39, 44, 47],
      ∃ n : ℕ, (extract_features url).getD i 0 = (n : ℝ)) ∧
    (∀ i ∈ [10, 22, 29, 32, 33, 42, 43, 54],
      0 ≤ (extract_features url).getD i 0 ∧ (extract_features url).getD i 0 ≤ 1) := by
  refine ⟨?_, ?_, ?_⟩
  · intro i hi
    fin_cases hi
    · rw [ef_getD_11, is_https]
      exact ite_zero_or_one _
    · rw [ef_getD_12, ip_in_url]
      exact ite_zero_or_one _
    · rw [ef_getD_13, is_punycode]
      exact ite_zero_or_one _
    · rw [ef_getD_15, port_anomaly]
      cases (parse_url_parts url).port with
      | none => exact Or.inl rfl
      | some pt => exact ite_zero_or_one_rev _
    · rw [ef_getD_21, brand_spoof_flag]
      exact ite_zero_or_one _
    · rw [ef_getD_23, brand_in_subdomain_only]
      exact ite_zero_or_one _
    · rw [ef_getD_24, has_login_kw]
      exact ite_zero_or_one _
    · rw [ef_getD_25, has_trust_kw_in_domain]
      exact ite_zero_or_one _
    · rw [ef_getD_26, has_payment_kw]
      exact ite_zero_or_one _
    · rw [ef_getD_27, has_free_kw]
      exact ite_zero_or_one _
    · rw [ef_getD_28, has_fraud_kw]
      exact ite_zero_or_one _
    · rw [ef_getD_30, hyphen_in_domain]
      exact ite_zero_or_one _
    · rw [ef_getD_31, double_extension]
      exact ite_zero_or_one _
    · rw [ef_getD_35, has_fragment]
      exact ite_zero_or_one_rev _
    · rw [ef_getD_36, is_data_uri]
      exact ite_zero_or_one _
    · rw [ef_getD_37, path_traversal]
      exact ite_zero_or_one _
    · rw [ef_getD_38, suspicious_tld]
      exact ite_zero_or_one _
    · rw [ef_getD_40, has_subdomain]
      exact ite_zero_or_one_rev _
    · rw [ef_getD_41, numeric_domain]
      exact ite_zero_or_one _
    · rw [ef_getD_45, is_short_url]
      exact ite_zero_or_one _
    · rw [ef_getD_46, base64_in_query]
      exact ite_zero_or_one _
    · rw [ef_getD_48, upi_vpa_present]
      exact ite_zero_or_one_rev _
    · rw [ef_getD_49, suspicious_upi_vpa]
      exact ite_zero_or_one _
    · rw [ef_getD_50, upi_collect_request]
      exact ite_zero_or_one _
    · rw [ef_getD_51, dangerous_extension]
      exact ite_zero_or_one _
    · rw [ef_getD_52, admin_path]
      exact ite_zero_or_one _
    · rw [ef_getD_53, open_redirect]
      exact ite_zero_or_one _
    · rw [ef_getD_55, hex_token_in_url]
      exact ite_zero_or_one _
  · intro i hi
    fin_cases hi
    · rw [ef_getD_0, url_length]
      exact ⟨_, rfl⟩
    · rw [ef_getD_1, domain_length]
      exact ⟨_, rfl⟩
    · rw [ef_getD_2, path_length]
      exact ⟨_, rfl⟩
    · rw [ef_getD_3, query_length]
      exact ⟨_, rfl⟩
    · rw [ef_getD_4, dot_count]
      exact ⟨_, rfl⟩
    · rw [ef_getD_5, hyphen_count]
      exact ⟨_, rfl⟩
    · rw [ef_getD_6, underscore_count]
      exact ⟨_, rfl⟩
    · rw [ef_getD_7, slash_count]
      exact ⟨_, rfl⟩
    · rw [ef_getD_8, at_count]
      exact ⟨_, rfl⟩
    · rw [ef_getD_9, digit_count]
      exact ⟨_, rfl⟩
    · refine ⟨(max (((parse_url_parts url).labels.length : ℤ) - 2) 0).toNat, ?_⟩
      rw [ef_getD_14, subdomain_depth]
      exact_mod_cast (Int.toNat_of_nonneg
        (le_max_right (((parse_url_parts url).labels.length : ℤ) - 2) 0)).symm
    · rw [ef_getD_34, query_param_count]
      split
      · exact ⟨0, by norm_num⟩
      · exact ⟨_, rfl⟩
    · rw [ef_getD_39, tld_length]
      exact ⟨_, rfl⟩
    · rw [ef_getD_44, max_consonant_run]
      exact ⟨_, rfl⟩
    · rw [ef_getD_47, path_depth]
      exact ⟨_, rfl⟩
  · intro i hi
    fin_cases hi
    · rw [ef_getD_10, digit_ratio_feat]
      exact ratio_shape _ _ (le_trans (List.countP_le_length _) (le_max_left _ 1))
        (lt_of_lt_of_le one_pos (le_max_right _ 1))
    · rw [ef_getD_22, brand_distance_norm]
      constructor
      · positivity
      · rw [div_le_one (by norm_num)]
        exact_mod_cast min_le_right _ 10
    · rw [ef_getD_29, keyword_density]
      constructor
      · apply le_min
        · positivity
        · norm_num
      · exact min_le_right _ 1
    · rw [ef_getD_32, pct_encoding_feat]
      exact ratio_shape _ _ (le_trans (pctCount_le_length url) (le_max_left _ 1))
        (lt_of_lt_of_le one_pos (le_max_right _ 1))
    · rw [ef_getD_33, heavy_encoding]
      constructor
      · apply le_min
        · apply div_nonneg
          · positivity
          · exact le_trans zero_le_one (le_max_right _ 1)
        · norm_num
      · exact min_le_right _ 1
    · rw [ef_getD_42, url_compression_feat]
      exact ratio_shape _ _ (le_trans (List.dedup_sublist url).length_le (le_max_left _ 1))
        (lt_of_lt_of_le one_pos (le_max_right _ 1))
    · rw [ef_getD_43, vowel_ratio_feat]
      apply ratio_shape
      · apply le_trans _ (le_max_left _ 1)
        apply List.countP_mono_left
        intro a _ h
        have ha : a ∈ ['a', 'e', 'i', 'o', 'u'] := by simpa using h
        fin_cases ha <;> decide
      · exact lt_of_lt_of_le one_pos (le_max_right _ 1)
    · rw [ef_getD_54, max_char_repeat_feat]
      apply ratio_shape
      · apply le_trans _ (le_max_left _ 1)
        apply pyMaxListD_le
        · exact Nat.zero_le _
        · intro x hx
          obtain ⟨ch, hc, rfl⟩ := List.mem_map.mp hx
          exact List.count_le_length ch _
      · exact lt_of_lt_of_le one_pos (le_max_right _ 1)

/-- Witness for C3 at a concrete index and input: the digit-ratio slot of
`"a1"` lies in the unit interval, and the is_https slot is 0 or 1. -/
theorem c3_feature_shapes_witness :
    ((extract_features ("a1".toList)).getD 11 0 = 0 ∨
      (extract_features ("a1".toList)).getD 11 0 = 1) ∧
    (0 ≤ (extract_features ("a1".toList)).getD 10 0 ∧
      (extract_features ("a1".toList)).getD 10 0 ≤ 1) :=
  ⟨(c3_feature_shapes ("a1".toList)).1 11 (by decide),
   (c3_feature_shapes ("a1".toList)).2.2 10 (by decide)⟩

end BV
